import Mathlib

/-!
Shallow embedding of the node-handle management and property-animation core of
the `dmGui` module (`src/gui/src/gui_script.cpp`), together with the parts of
the pool/scheduler (`NewNode`, `AnimateNode`, `CancelAnimation`, the per-frame
animation tick and the deferred-delete sweep) that the script binding calls
into.  Handles are 32-bit words packing a 16-bit version (upper half) and a
16-bit slot index (lower half).  Machine integers are modelled as `Nat` with
explicit `% 65536` where the 16-bit truncation matters; vector values are
quadruples of rationals; Lua errors are modelled as explicit error results.
-/

namespace DmGui

/-- A 4-component vector value (`Vector4` in the source), as rationals. -/
abbrev Vec4 := ℚ × ℚ × ℚ × ℚ

/-- The all-zero vector. -/
def zero4 : Vec4 := (0, 0, 0, 0)

/-- Number of animatable properties: POSITION, ROTATION, SCALE, COLOR,
EXTENTS (`PROPERTY_COUNT`).  Kept as `Int` because the script binding reads
the property argument as a C `int`. -/
def PROPERTY_COUNT : Int := 5

/-- Number of easing kinds: NONE, IN, OUT, INOUT (`EASING_COUNT`). -/
def EASING_COUNT : Int := 4

/-- Slot-index marker used for unoccupied slots (`INVALID_INDEX`, 0xffff). -/
def INVALID_INDEX : Nat := 65535

/-- One pool slot (`InternalNode`): the stored 16-bit version counter, the
back-reference index (`m_Index`, equal to the slot position while the slot is
occupied and `INVALID_INDEX` while it is free), the deferred-delete flag, the
spec-level `occupied` flag of the Slot, and the property payload indexed by
the `Property` enumeration. -/
structure InternalNode where
  m_Version : Nat
  m_Index : Nat
  m_Deleted : Bool
  m_Occupied : Bool
  m_Properties : List Vec4
deriving DecidableEq

/-- Default (freshly reset) slot contents: version 0, back-reference
`INVALID_INDEX`, free, payload defaults. -/
def defaultNode : InternalNode :=
  { m_Version := 0
    m_Index := INVALID_INDEX
    m_Deleted := false
    m_Occupied := false
    m_Properties := [zero4, zero4, zero4, zero4, zero4] }

instance : Inhabited InternalNode := ⟨defaultNode⟩

/-- One animation in flight (a Track of the Animation Scheduler): target
handle, target property (as the C `int` the binding passed), end value, start
value captured at `Start` time, easing kind, total duration, remaining delay,
elapsed time, the two caller-supplied opaque token words, and whether a
completion callback was supplied. -/
structure Animation where
  m_Node : Nat
  m_Property : Int
  m_To : Vec4
  m_From : Vec4
  m_Easing : Int
  m_Duration : ℚ
  m_Delay : ℚ
  m_Elapsed : ℚ
  m_Userdata1 : Nat
  m_Userdata2 : Nat
  m_HasCallback : Bool
deriving DecidableEq

/-- Scene state: the fixed-capacity node pool (`m_Nodes`, whose length is the
capacity), the in-flight animation tracks in creation order, and the pool's
free-index list. -/
structure Scene where
  m_Nodes : List InternalNode
  m_Animations : List Animation
  m_FreeList : List Nat
deriving DecidableEq

/-- The version field of a handle word: `(uint16_t) (node >> 16)`. -/
def handleVersion (node : Nat) : Nat := (node >>> 16) % 65536

/-- The index field of a handle word: `node & 0xffff`. -/
def handleIndex (node : Nat) : Nat := node &&& 65535

/-- Embedding of `IsValidNode` (gui_script.cpp:51-64): decode the version and
index halves of the handle word, require the index to be in range of the pool
and both the stored version and the back-reference index to match. -/
def IsValidNode (scene : Scene) (node : Nat) : Bool :=
  let version := handleVersion node
  let index := handleIndex node
  if index < scene.m_Nodes.length then
    let n := scene.m_Nodes.getD index defaultNode
    n.m_Version == version && n.m_Index == index
  else
    false

/-- Modelled from the spec: the validity invariant as §3 states it — "A
Handle is valid iff its index is in range, the Slot is occupied, and its
version matches the Slot's version."  Stated over the spec-level `occupied`
flag, to be compared with the source predicate `IsValidNode`. -/
def SpecValid (scene : Scene) (node : Nat) : Prop :=
  handleIndex node < scene.m_Nodes.length ∧
  (scene.m_Nodes.getD (handleIndex node) defaultNode).m_Occupied = true ∧
  (scene.m_Nodes.getD (handleIndex node) defaultNode).m_Version = handleVersion node

/-- Modelled from the spec (the packing in `GetNodeHandle`/`NewNode` is not
under src/): a handle word packs the 16-bit version in the upper half and the
16-bit index in the lower half of one 32-bit word
(`version << 16 | index`, here in arithmetic form). -/
def GetNodeHandle (version index : Nat) : Nat :=
  (version % 65536) * 65536 + index % 65536

/-- The occupancy-representation invariant linking the source pool to the
spec's `occupied` flag: a slot in range is occupied exactly when its
back-reference `m_Index` equals its own position.  (`Sweep` resets `m_Index`
to `INVALID_INDEX`; `Allocate` sets it to the slot position.)  The pool
capacity never exceeds `INVALID_INDEX`, so the two cannot collide. -/
def IndexInv (scene : Scene) : Prop :=
  scene.m_Nodes.length ≤ INVALID_INDEX ∧
  ∀ i, i < scene.m_Nodes.length →
    ((scene.m_Nodes.getD i defaultNode).m_Occupied = true ↔
      (scene.m_Nodes.getD i defaultNode).m_Index = i)

/-- Embedding of the node accessor used by `LuaGet<Property>`
(gui_script.cpp:770-794): validate, then read
`n->m_Node.m_Properties[property]`; on an invalid handle the binding raises
"Deleted node" (modelled as `none`). -/
def LuaGetProperty (scene : Scene) (node : Nat) (property : Nat) : Option Vec4 :=
  if IsValidNode scene node then
    some ((scene.m_Nodes.getD (handleIndex node) defaultNode).m_Properties.getD
      property zero4)
  else
    none

/-- Embedding of `LuaDeleteNode` (gui_script.cpp:204-217): validate the
handle (raising "Deleted node", modelled as `none`, when invalid), then set
the deferred-delete flag `m_Deleted = 1` and nothing else. -/
def LuaDeleteNode (scene : Scene) (node : Nat) : Option Scene :=
  if IsValidNode scene node then
    let index := handleIndex node
    let n := scene.m_Nodes.getD index defaultNode
    some { scene with
      m_Nodes := scene.m_Nodes.set index { n with m_Deleted := true } }
  else
    none

/-- Modelled from the spec (`NewNode` is not under src/): `Allocate(kind)`
takes the next free index from the free list, marks the slot occupied, does
not change its version, initializes payload defaults, and returns the handle
packing the slot's current version with the index; fails (`none`, reported
as "Out of nodes" by the binding) when the free list is empty. -/
def NewNode (scene : Scene) (pos ext : Vec4) : Option (Scene × Nat) :=
  match scene.m_FreeList with
  | [] => none
  | index :: rest =>
    let n0 := scene.m_Nodes.getD index defaultNode
    let n : InternalNode :=
      { m_Version := n0.m_Version
        m_Index := index
        m_Deleted := false
        m_Occupied := true
        m_Properties := [pos, zero4, zero4, zero4, ext] }
    some ({ scene with
        m_Nodes := scene.m_Nodes.set index n
        m_FreeList := rest },
      GetNodeHandle n0.m_Version index)

/-- Whether the slot a track's handle addresses is due for reclamation. -/
def trackSlotReclaimed (scene : Scene) (a : Animation) : Bool :=
  let n := scene.m_Nodes.getD (handleIndex a.m_Node) defaultNode
  n.m_Occupied && n.m_Deleted

/-- Reclaim one slot if it is occupied and marked deleted: reset the payload,
increment the version (mod 2^16), clear occupancy and the back-reference. -/
def sweepNode (n : InternalNode) : InternalNode :=
  if n.m_Occupied && n.m_Deleted then
    { defaultNode with m_Version := (n.m_Version + 1) % 65536 }
  else
    n

/-- `sweepNodeList` applies `sweepNode` to every slot (index order). -/
def sweepNodeList : List InternalNode → List InternalNode
  | [] => []
  | n :: rest => sweepNode n :: sweepNodeList rest

/-- Indices reclaimed by a sweep of `scene`, in index order. -/
def reclaimedIndices (scene : Scene) : List Nat :=
  (List.range scene.m_Nodes.length).filter fun i =>
    let n := scene.m_Nodes.getD i defaultNode
    n.m_Occupied && n.m_Deleted

/-- Modelled from the spec (the sweep pass is not under src/): `Sweep()`
reclaims, in index order, every occupied slot marked pending-delete —
cancelling (without completion) every track referencing such a slot,
resetting the payload, incrementing the version mod 2^16, clearing the
occupied flag and returning the index to the free list — and leaves all
other slots untouched. -/
def SweepNodes (scene : Scene) : Scene :=
  { m_Nodes := sweepNodeList scene.m_Nodes
    m_Animations := scene.m_Animations.filter fun a => !trackSlotReclaimed scene a
    m_FreeList := scene.m_FreeList ++ reclaimedIndices scene }

/-- The replacement key of a track: the `(node index, property)` pair. -/
def animKey (a : Animation) : Nat × Int := (handleIndex a.m_Node, a.m_Property)

/-- Current value of property `p` of the slot at `index` (used to capture a
track's start value). -/
def nodePropValue (scene : Scene) (index : Nat) (p : Int) : Vec4 :=
  (scene.m_Nodes.getD index defaultNode).m_Properties.getD p.toNat zero4

/-- Write value `v` into property `p` of the slot at `index`. -/
def writeProp (scene : Scene) (index : Nat) (p : Int) (v : Vec4) : Scene :=
  let n := scene.m_Nodes.getD index defaultNode
  { scene with
    m_Nodes := scene.m_Nodes.set index
      { n with m_Properties := n.m_Properties.set p.toNat v } }

/-- Modelled from the spec (`AnimateNode` is not under src/): `Start`
captures the node's current value for the property as the track's start
value, clamps a negative delay to 0, atomically replaces any existing track
with the same `(node index, property)` key — dropped silently, no completion
— and appends the new track (creation order). -/
def AnimateNode (scene : Scene) (node : Nat) (property : Int) (toVal : Vec4)
    (easing : Int) (duration delay : ℚ) (hasCb : Bool) (u1 u2 : Nat) : Scene :=
  let index := handleIndex node
  let a : Animation :=
    { m_Node := node
      m_Property := property
      m_To := toVal
      m_From := nodePropValue scene index property
      m_Easing := easing
      m_Duration := duration
      m_Delay := max delay 0
      m_Elapsed := 0
      m_Userdata1 := u1
      m_Userdata2 := u2
      m_HasCallback := hasCb }
  { scene with
    m_Animations :=
      (scene.m_Animations.filter fun b => !(animKey b == (index, property))) ++ [a] }

/-- Modelled from the spec (`CancelAnimation` is not under src/): remove the
matching track if present, no-op otherwise, never invoking its completion. -/
def CancelAnimation (scene : Scene) (node : Nat) (property : Int) : Scene :=
  { scene with
    m_Animations :=
      scene.m_Animations.filter fun b => !(animKey b == (handleIndex node, property)) }

/-- Modelled from the spec: the easing curves.  `EASING_NONE` (0) is linear;
the exact in/out/in-out curve family is an implementation choice (quadratic
here), satisfying e(0)=0, e(1)=1 and monotonicity. -/
def easeValue (easing : Int) (t : ℚ) : ℚ :=
  if easing = 1 then t * t
  else if easing = 2 then 1 - (1 - t) * (1 - t)
  else if easing = 3 then
    (if t < 1 / 2 then 2 * t * t else 1 - 2 * (1 - t) * (1 - t))
  else t

/-- Componentwise linear interpolation from `a` to `b` at eased progress `e`. -/
def lerp4 (a b : Vec4) (e : ℚ) : Vec4 :=
  (a.1 + (b.1 - a.1) * e,
   a.2.1 + (b.2.1 - a.2.1) * e,
   a.2.2.1 + (b.2.2.1 - a.2.2.1) * e,
   a.2.2.2 + (b.2.2.2 - a.2.2.2) * e)

/-- One invocation of the completion dispatcher.  Its fields mirror the
arguments of the registered dispatcher `LuaAnimationComplete(HScene scene,
HNode node, void* userdata1, void* userdata2)` (gui_script.cpp:219): the
scene (ambient here), the node handle, and the two opaque token words.  The
animated property is not among the dispatcher's arguments. -/
structure CompletionArgs where
  m_Node : Nat
  m_Userdata1 : Nat
  m_Userdata2 : Nat
deriving DecidableEq

/-- Delay/elapsed bookkeeping for one tick past the delay: the remaining
delay is consumed and its `dt`-exceeding remainder accumulates into
`elapsed`. -/
def advanceAnim (dt : ℚ) (a : Animation) : Animation :=
  { a with m_Delay := 0, m_Elapsed := a.m_Elapsed + (dt - a.m_Delay) }

/-- Normalized progress after this tick: `t = min(elapsed / duration, 1)`,
where `duration ≤ 0` counts as immediate completion (`t = 1`). -/
def tickT (dt : ℚ) (a : Animation) : ℚ :=
  if a.m_Duration ≤ 0 then 1
  else min ((a.m_Elapsed + (dt - a.m_Delay)) / a.m_Duration) 1

/-- Modelled from the spec (the tick pass is not under src/): advance one
track by `dt` against the current scene.  Returns the updated scene, the
surviving track (if any) and the completion fired (if any): (a) while within
the delay, consume `dt` from the delay and do not touch the property; (b)
otherwise accumulate the remainder into `elapsed`, compute `t = min(elapsed /
duration, 1)` (`duration ≤ 0` counts as immediate completion), and write the
eased interpolation into the property only if the owning handle is still
valid and not pending-delete — otherwise drop the track silently; (c) at `t ≥
1` write the exact end value, drop the track and fire its completion. -/
def tickAnimation (scene : Scene) (dt : ℚ) (a : Animation) :
    Scene × Option Animation × Option CompletionArgs :=
  if dt ≤ a.m_Delay then
    (scene, some { a with m_Delay := a.m_Delay - dt }, none)
  else if IsValidNode scene a.m_Node &&
      !(scene.m_Nodes.getD (handleIndex a.m_Node) defaultNode).m_Deleted then
    if 1 ≤ tickT dt a then
      (writeProp scene (handleIndex a.m_Node) a.m_Property a.m_To, none,
        if a.m_HasCallback then
          some ⟨a.m_Node, a.m_Userdata1, a.m_Userdata2⟩
        else none)
    else
      (writeProp scene (handleIndex a.m_Node) a.m_Property
          (lerp4 a.m_From a.m_To (easeValue a.m_Easing (tickT dt a))),
        some (advanceAnim dt a), none)
  else
    (scene, none, none)

/-- Advance a list of tracks in order, threading the scene and collecting the
survivors and the fired completions. -/
def tickList (dt : ℚ) : Scene → List Animation → Scene × List Animation × List CompletionArgs
  | scene, [] => (scene, [], [])
  | scene, a :: rest =>
    let r1 := tickAnimation scene dt a
    let r2 := tickList dt r1.1 rest
    (r2.1, r1.2.1.toList ++ r2.2.1, r1.2.2.toList ++ r2.2.2)

/-- Modelled from the spec: `Tick(dt)` advances every active track in
creation order and returns the fired completions in order. -/
def UpdateAnimations (scene : Scene) (dt : ℚ) : Scene × List CompletionArgs :=
  let r := tickList dt scene scene.m_Animations
  ({ r.1 with m_Animations := r.2.1 }, r.2.2)

/-- Modelled from the spec: `Update(dt)` performs, in fixed order,
`Scheduler.Tick(dt)` then `Pool.Sweep()`. -/
def UpdateScene (scene : Scene) (dt : ℚ) : Scene × List CompletionArgs :=
  let r := UpdateAnimations scene dt
  (SweepNodes r.1, r.2)

/-- A Lua stack value as the binding distinguishes them: absent argument,
nil, number, vector, function, a `NodeProxy` userdatum (carrying its scene id
and handle word, the fields `m_Scene`/`m_Node` of `NodeProxy`), or any other
value. -/
inductive LuaValue where
  | absent : LuaValue
  | nilv : LuaValue
  | num : ℚ → LuaValue
  | vec : Vec4 → LuaValue
  | func : Nat → LuaValue
  | nodeProxy : Nat → Nat → LuaValue
  | other : LuaValue
deriving DecidableEq

/-- The Lua registry as `luaL_ref` sees it: the allocated references (id and
referenced value, in allocation order) and the next fresh id. -/
structure LuaRegistry where
  m_Refs : List (Nat × LuaValue)
  m_NextRef : Nat
deriving DecidableEq

/-- `luaL_ref`: allocate a fresh registry reference to `v` and return it. -/
def luaRef (r : LuaRegistry) (v : LuaValue) : LuaRegistry × Nat :=
  ({ m_Refs := r.m_Refs ++ [(r.m_NextRef, v)], m_NextRef := r.m_NextRef + 1 },
    r.m_NextRef)

/-- Embedding of `NodeProxy_eq` (gui_script.cpp:127-149), the `__eq`
metamethod: if either operand is not a `NodeProxy` userdatum, push `false`;
otherwise validate both operands via `LuaCheckNode` (gui_script.cpp:66-82),
raising the "Deleted node" error if either fails `IsValidNode`, and compare
the two packed handle words. -/
def NodeProxy_eq (scenes : Nat → Scene) (v1 v2 : LuaValue) : Except String Bool :=
  match v1 with
  | .nodeProxy s1 n1 =>
    match v2 with
    | .nodeProxy s2 n2 =>
      if IsValidNode (scenes s1) n1 then
        if IsValidNode (scenes s2) n2 then
          .ok (n1 == n2)
        else
          .error "Deleted node"
      else
        .error "Deleted node"
    | _ => .ok false
  | _ => .ok false

/-- Outcome of a `LuaAnimate` call: the scene and registry afterwards, and
the error message when the call raised one (`luaL_error` / `luaL_typerror`
unwinds the call but leaves the scene and registry as they are at the raise
point). -/
structure LuaAnimateResult where
  m_Scene : Scene
  m_Registry : LuaRegistry
  m_Error : Option String
deriving DecidableEq

/-- Embedding of `LuaAnimate` (gui_script.cpp:327-385), in source order:
check the node argument (raising "Deleted node" when invalid); read
`property` and `easing` as C `int`s, the target value and `duration`; if
argument 6 is a number take it as the delay and, when argument 7 is a
function, register the completion function and the node proxy in the
registry via `luaL_ref` (a non-number non-absent argument 6 is
`luaL_typerror`); only then reject `property >= PROPERTY_COUNT` and `easing
>= EASING_COUNT`; finally call `AnimateNode`, with `LuaAnimationComplete`
and the two registry references as the opaque token words when a completion
function was supplied. -/
def LuaAnimate (scene : Scene) (reg : LuaRegistry) (nodeArg : LuaValue)
    (property : Int) (toVal : Vec4) (easing : Int) (duration : ℚ)
    (arg6 arg7 : LuaValue) : LuaAnimateResult :=
  match nodeArg with
  | .nodeProxy _ node =>
    if IsValidNode scene node then
      match arg6 with
      | .num d =>
        match arg7 with
        | .func _ =>
          let r1 := luaRef reg arg7
          let r2 := luaRef r1.1 nodeArg
          if property ≥ PROPERTY_COUNT then
            ⟨scene, r2.1, some "Invalid property index"⟩
          else if easing ≥ EASING_COUNT then
            ⟨scene, r2.1, some "Invalid easing"⟩
          else
            ⟨AnimateNode scene node property toVal easing duration d true r1.2 r2.2,
              r2.1, none⟩
        | _ =>
          if property ≥ PROPERTY_COUNT then
            ⟨scene, reg, some "Invalid property index"⟩
          else if easing ≥ EASING_COUNT then
            ⟨scene, reg, some "Invalid easing"⟩
          else
            ⟨AnimateNode scene node property toVal easing duration d false 0 0,
              reg, none⟩
      | .absent =>
        if property ≥ PROPERTY_COUNT then
          ⟨scene, reg, some "Invalid property index"⟩
        else if easing ≥ EASING_COUNT then
          ⟨scene, reg, some "Invalid easing"⟩
        else
          ⟨AnimateNode scene node property toVal easing duration 0 false 0 0,
            reg, none⟩
      | _ => ⟨scene, reg, some "number expected"⟩
    else
      ⟨scene, reg, some "Deleted node"⟩
  | _ => ⟨scene, reg, some "NodeProxy expected"⟩

/-- A Scene operation, as issued by the binding layer between frames. -/
inductive GuiOp where
  | animate (node : Nat) (property : Int) (toVal : Vec4) (easing : Int)
      (duration delay : ℚ) (hasCb : Bool) (u1 u2 : Nat) : GuiOp
  | cancel (node : Nat) (property : Int) : GuiOp
  | deleteNode (node : Nat) : GuiOp
  | update (dt : ℚ) : GuiOp
deriving DecidableEq

/-- Apply one operation, returning the new scene and the completions it
fired (only `update` can fire completions). -/
def applyOp (scene : Scene) : GuiOp → Scene × List CompletionArgs
  | .animate node property toVal easing duration delay hasCb u1 u2 =>
    (AnimateNode scene node property toVal easing duration delay hasCb u1 u2, [])
  | .cancel node property => (CancelAnimation scene node property, [])
  | .deleteNode node => ((LuaDeleteNode scene node).getD scene, [])
  | .update dt => UpdateScene scene dt

/-- Run a sequence of operations, concatenating the fired completions. -/
def runOps : Scene → List GuiOp → Scene × List CompletionArgs
  | scene, [] => (scene, [])
  | scene, op :: ops =>
    let r1 := applyOp scene op
    let r2 := runOps r1.1 ops
    (r2.1, r1.2 ++ r2.2)

/-- Whether an operation starts a track carrying `u` as its first token word. -/
def opUsesToken (u : Nat) : GuiOp → Bool
  | .animate _ _ _ _ _ _ _ u1 _ => u1 == u
  | _ => false

/-- No track in the scene carries `u` as its first token word. -/
def TokenFree (u : Nat) (scene : Scene) : Prop :=
  ∀ a ∈ scene.m_Animations, a.m_Userdata1 ≠ u

/-- At most one track per `(node index, property)` key. -/
def AtMostOnePerKey (scene : Scene) : Prop :=
  scene.m_Animations.Pairwise fun a b => animKey a ≠ animKey b

/-! ## General lemmas about the handle encoding -/

theorem handleIndex_eq_mod (node : Nat) : handleIndex node = node % 65536 := by
  have h := Nat.and_pow_two_sub_one_eq_mod node 16
  norm_num at h
  simpa [handleIndex] using h

theorem handleVersion_eq (node : Nat) : handleVersion node = node / 65536 % 65536 := by
  simp [handleVersion, Nat.shiftRight_eq_div_pow]

/-- A fixture slot: occupied at position 0, version 0, default payload. -/
def nodeOne : InternalNode :=
  { m_Version := 0
    m_Index := 0
    m_Deleted := false
    m_Occupied := true
    m_Properties := [zero4, zero4, zero4, zero4, zero4] }

/-- A fixture scene with one occupied slot, used to instantiate theorems. -/
def sceneOne : Scene :=
  { m_Nodes := [nodeOne]
    m_Animations := []
    m_FreeList := [] }

/-! ## C1: validation -/

/-- C1: for every handle, `Validate` (the total boolean predicate
`IsValidNode`) returns `true` iff the handle's index is in range of the pool,
the addressed slot is occupied, and the handle's version equals the slot's
current version — given the occupancy-representation invariant linking the
source pool's `m_Index` back-reference to the spec's `occupied` flag. -/
theorem isValidNode_iff_specValid (scene : Scene) (node : Nat)
    (hinv : IndexInv scene) :
    IsValidNode scene node = true ↔ SpecValid scene node := by
  unfold IsValidNode SpecValid
  by_cases hlt : handleIndex node < scene.m_Nodes.length
  · simp only [hlt, if_pos, Bool.and_eq_true, beq_iff_eq, true_and]
    have hocc := hinv.2 (handleIndex node) hlt
    constructor
    · rintro ⟨hv, hi⟩
      exact ⟨hocc.mpr hi, hv⟩
    · rintro ⟨hocc', hv⟩
      exact ⟨hv, hocc.mp hocc'⟩
  · simp [hlt]

/-- Witness for C1 at a concrete scene and handle. -/
theorem isValidNode_iff_specValid_witness :
    IndexInv sceneOne ∧
      (IsValidNode sceneOne 0 = true ↔ SpecValid sceneOne 0) :=
  ⟨⟨by decide, by decide⟩,
    isValidNode_iff_specValid sceneOne 0 ⟨by decide, by decide⟩⟩

/-! ## C9: the handle word layout -/

/-- C9: validation decodes a 32-bit handle word as version = upper 16 bits
and index = lower 16 bits, so the version counter is effectively 16 bits
wide: packing two version counters that agree mod 2^16 with the same index
yields handles `Validate` cannot distinguish, on every scene. -/
theorem handle_layout_sixteen_bit_version :
    (∀ node : Nat, node < 4294967296 →
      handleVersion node = node / 65536 ∧ handleIndex node = node % 65536) ∧
    (∀ (scene : Scene) (v1 v2 i : Nat), v1 % 65536 = v2 % 65536 →
      IsValidNode scene (GetNodeHandle v1 i) =
        IsValidNode scene (GetNodeHandle v2 i)) := by
  constructor
  · intro node hlt
    refine ⟨?_, handleIndex_eq_mod node⟩
    rw [handleVersion_eq]
    have hdiv : node / 65536 < 65536 := by omega
    exact Nat.mod_eq_of_lt hdiv
  · intro scene v1 v2 i hmod
    have : GetNodeHandle v1 i = GetNodeHandle v2 i := by
      unfold GetNodeHandle
      rw [hmod]
    rw [this]

/-- Witness for C9: the handle word 65537 decodes to version 1, index 1, and
the version counters 1 and 65537 pack to indistinguishable handles. -/
theorem handle_layout_sixteen_bit_version_witness :
    (handleVersion 65537 = 1 ∧ handleIndex 65537 = 1) ∧
      IsValidNode sceneOne (GetNodeHandle 1 0) =
        IsValidNode sceneOne (GetNodeHandle 65537 0) :=
  ⟨(handle_layout_sixteen_bit_version.1 65537 (by norm_num) : _),
    handle_layout_sixteen_bit_version.2 sceneOne 1 65537 0 (by norm_num)⟩

/-! ## Pool list helpers -/

theorem getD_set_self (l : List InternalNode) (i : Nat) (x : InternalNode)
    (h : i < l.length) : (l.set i x).getD i defaultNode = x := by
  simp [List.getD, List.getElem?_set, h]

theorem getD_set_ne (l : List InternalNode) (i j : Nat) (x : InternalNode)
    (h : i ≠ j) : (l.set i x).getD j defaultNode = l.getD j defaultNode := by
  simp [List.getD, List.getElem?_set, h]

theorem isValidNode_eq (scene : Scene) (node : Nat) :
    IsValidNode scene node =
      (decide (handleIndex node < scene.m_Nodes.length) &&
        ((scene.m_Nodes.getD (handleIndex node) defaultNode).m_Version ==
          handleVersion node) &&
        ((scene.m_Nodes.getD (handleIndex node) defaultNode).m_Index ==
          handleIndex node)) := by
  unfold IsValidNode
  by_cases h : handleIndex node < scene.m_Nodes.length <;>
    simp [h, Bool.and_assoc]

theorem isValidNode_elim (scene : Scene) (node : Nat)
    (hv : IsValidNode scene node = true) :
    handleIndex node < scene.m_Nodes.length ∧
    (scene.m_Nodes.getD (handleIndex node) defaultNode).m_Version = handleVersion node ∧
    (scene.m_Nodes.getD (handleIndex node) defaultNode).m_Index = handleIndex node := by
  rw [isValidNode_eq] at hv
  simp only [Bool.and_eq_true, beq_iff_eq, decide_eq_true_eq] at hv
  exact ⟨hv.1.1, hv.1.2, hv.2⟩

theorem isValidNode_intro (scene : Scene) (node : Nat)
    (hlt : handleIndex node < scene.m_Nodes.length)
    (hver : (scene.m_Nodes.getD (handleIndex node) defaultNode).m_Version = handleVersion node)
    (hidx : (scene.m_Nodes.getD (handleIndex node) defaultNode).m_Index = handleIndex node) :
    IsValidNode scene node = true := by
  rw [isValidNode_eq]
  simp only [Bool.and_eq_true, beq_iff_eq, decide_eq_true_eq]
  exact ⟨⟨hlt, hver⟩, hidx⟩

/-! ## C2: deferred deletion marks only -/

/-- C2: on a valid handle, `LuaDeleteNode` only sets the pending-delete flag:
before the next update/sweep the handle still validates, every property still
reads its last-written value, no other field of the node changes, no other
slot changes, and the tracks and the free list are untouched. -/
theorem deleteNode_marks_only (scene : Scene) (node : Nat)
    (hv : IsValidNode scene node = true) :
    ∃ s', LuaDeleteNode scene node = some s' ∧
      IsValidNode s' node = true ∧
      (∀ p, LuaGetProperty s' node p = LuaGetProperty scene node p) ∧
      s'.m_Nodes.getD (handleIndex node) defaultNode =
        { scene.m_Nodes.getD (handleIndex node) defaultNode with m_Deleted := true } ∧
      (∀ j, j ≠ handleIndex node →
        s'.m_Nodes.getD j defaultNode = scene.m_Nodes.getD j defaultNode) ∧
      s'.m_Animations = scene.m_Animations ∧
      s'.m_FreeList = scene.m_FreeList := by
  obtain ⟨hlt, hver, hidx⟩ := isValidNode_elim scene node hv
  set i := handleIndex node with hi
  set n := scene.m_Nodes.getD i defaultNode with hn
  have hset : (scene.m_Nodes.set i { n with m_Deleted := true }).getD i defaultNode
      = { n with m_Deleted := true } := getD_set_self _ _ _ hlt
  have hvalid' : IsValidNode
      { scene with m_Nodes := scene.m_Nodes.set i { n with m_Deleted := true } }
      node = true := by
    refine isValidNode_intro _ _ ?_ ?_ ?_
    · simpa using hlt
    · rw [show ({ scene with
          m_Nodes := scene.m_Nodes.set i { n with m_Deleted := true } } : Scene).m_Nodes
          = scene.m_Nodes.set i { n with m_Deleted := true } from rfl, ← hi, hset]
      exact hver
    · rw [show ({ scene with
          m_Nodes := scene.m_Nodes.set i { n with m_Deleted := true } } : Scene).m_Nodes
          = scene.m_Nodes.set i { n with m_Deleted := true } from rfl, ← hi, hset]
      exact hidx
  refine ⟨{ scene with m_Nodes := scene.m_Nodes.set i { n with m_Deleted := true } },
    ?_, hvalid', ?_, ?_, ?_, rfl, rfl⟩
  · unfold LuaDeleteNode
    rw [hv]
    rfl
  · intro p
    unfold LuaGetProperty
    rw [hv, hvalid']
    rw [show ({ scene with
        m_Nodes := scene.m_Nodes.set i { n with m_Deleted := true } } : Scene).m_Nodes
        = scene.m_Nodes.set i { n with m_Deleted := true } from rfl, ← hi, hset]
  · rw [show ({ scene with
        m_Nodes := scene.m_Nodes.set i { n with m_Deleted := true } } : Scene).m_Nodes
        = scene.m_Nodes.set i { n with m_Deleted := true } from rfl, hset]
  · intro j hj
    exact getD_set_ne _ _ _ _ (Ne.symm hj)

/-- Witness for C2 at a concrete scene and handle. -/
theorem deleteNode_marks_only_witness :
    ∃ s', LuaDeleteNode sceneOne 0 = some s' ∧
      IsValidNode s' 0 = true ∧
      (∀ p, LuaGetProperty s' 0 p = LuaGetProperty sceneOne 0 p) ∧
      s'.m_Nodes.getD (handleIndex 0) defaultNode =
        { sceneOne.m_Nodes.getD (handleIndex 0) defaultNode with m_Deleted := true } ∧
      (∀ j, j ≠ handleIndex 0 →
        s'.m_Nodes.getD j defaultNode = sceneOne.m_Nodes.getD j defaultNode) ∧
      s'.m_Animations = sceneOne.m_Animations ∧
      s'.m_FreeList = sceneOne.m_FreeList :=
  deleteNode_marks_only sceneOne 0 (by decide)

/-! ## C10: script equality of node proxies -/

/-- C10: `__eq` on node proxies compares the packed handle words: if either
operand is not a node proxy the result is `false` without error; if both are
node proxies, both are validated and the comparison raises the "Deleted
node" error when either handle fails validation, otherwise returns whether
the two packed `(version, index)` words are equal. -/
theorem nodeProxy_eq_spec (scenes : Nat → Scene) :
    (∀ s1 n1 s2 n2,
      (IsValidNode (scenes s1) n1 = true → IsValidNode (scenes s2) n2 = true →
        NodeProxy_eq scenes (.nodeProxy s1 n1) (.nodeProxy s2 n2) = .ok (n1 == n2)) ∧
      (¬(IsValidNode (scenes s1) n1 = true ∧ IsValidNode (scenes s2) n2 = true) →
        NodeProxy_eq scenes (.nodeProxy s1 n1) (.nodeProxy s2 n2) =
          .error "Deleted node")) ∧
    (∀ v1 v2 : LuaValue, ((∀ s n, v1 ≠ .nodeProxy s n) ∨ (∀ s n, v2 ≠ .nodeProxy s n)) →
      NodeProxy_eq scenes v1 v2 = .ok false) := by
  constructor
  · intro s1 n1 s2 n2
    constructor
    · intro h1 h2
      simp only [NodeProxy_eq, h1, h2, if_true]
    · intro hnot
      cases h1 : IsValidNode (scenes s1) n1
      · simp [NodeProxy_eq, h1]
      · cases h2 : IsValidNode (scenes s2) n2
        · simp [NodeProxy_eq, h1, h2]
        · exact absurd ⟨h1, h2⟩ hnot
  · intro v1 v2 hne
    rcases hne with h | h
    · cases v1 <;> first
        | rfl
        | exact absurd rfl (h _ _)
    · cases v1 <;> cases v2 <;> first
        | rfl
        | exact absurd rfl (h _ _)

/-- Witness for C10 at concrete proxies: equal valid handles compare `true`,
a proxy against a number compares `false`, and a stale handle raises. -/
theorem nodeProxy_eq_spec_witness :
    NodeProxy_eq (fun _ => sceneOne) (.nodeProxy 0 0) (.nodeProxy 0 0) = .ok (0 == 0) ∧
    NodeProxy_eq (fun _ => sceneOne) (.nodeProxy 0 0) (.num 3) = .ok false ∧
    NodeProxy_eq (fun _ => sceneOne) (.nodeProxy 0 0) (.nodeProxy 0 65536) =
      .error "Deleted node" :=
  ⟨((nodeProxy_eq_spec (fun _ => sceneOne)).1 0 0 0 0).1 (by decide) (by decide),
    (nodeProxy_eq_spec (fun _ => sceneOne)).2 (.nodeProxy 0 0) (.num 3)
      (Or.inr fun s n h => by cases h),
    ((nodeProxy_eq_spec (fun _ => sceneOne)).1 0 0 0 65536).2
      (by decide)⟩

/-! ## C5: out-of-range property and easing arguments -/

/-- The empty Lua registry. -/
def emptyReg : LuaRegistry := { m_Refs := [], m_NextRef := 0 }

/-- C5 (failing input): the binding only rejects `property >= PROPERTY_COUNT`
and `easing >= EASING_COUNT` — both read as signed C `int`s — so the
below-range arguments `property = -1`, `easing = -1` pass both checks: the
call returns without error and a track keyed on the out-of-enumeration pair
`(0, -1)` with easing `-1` is created, where the claim (and spec §4.2 /
§7) requires an `InvalidProperty` / `InvalidEasing` failure and no track. -/
theorem luaAnimate_accepts_below_range :
    (LuaAnimate sceneOne emptyReg (.nodeProxy 0 0) (-1) zero4 (-1) 1
        .absent .absent).m_Error = none ∧
    (LuaAnimate sceneOne emptyReg (.nodeProxy 0 0) (-1) zero4 (-1) 1
        .absent .absent).m_Scene.m_Animations.map animKey = [(0, -1)] ∧
    (LuaAnimate sceneOne emptyReg (.nodeProxy 0 0) (-1) zero4 (-1) 1
        .absent .absent).m_Scene.m_Animations.map Animation.m_Easing = [-1] := by
  refine ⟨by decide, by decide, by decide⟩

/-! ## C4: atomicity of failing calls -/

/-- C4 (counterexample): a failing `gui.animate` call is not state-neutral.
With a completion function supplied and the out-of-range property index 5,
the call raises "Invalid property index", yet the two completion registry
references taken by `luaL_ref` before the validation are left registered:
the registry differs from its pre-call state. -/
theorem luaAnimate_error_not_atomic :
    (LuaAnimate sceneOne emptyReg (.nodeProxy 0 0) 5 zero4 0 1
        (.num 0) (.func 7)).m_Error.isSome = true ∧
    (LuaAnimate sceneOne emptyReg (.nodeProxy 0 0) 5 zero4 0 1
        (.num 0) (.func 7)).m_Registry ≠ emptyReg := by
  refine ⟨by decide, by decide⟩

/-- C4 (amended): whenever `LuaAnimate` returns an error, the scene — pool
slots and scheduler tracks — is exactly as it was before the call; only the
completion-token registry references taken before validation may remain
registered. -/
theorem luaAnimate_error_preserves_scene (scene : Scene) (reg : LuaRegistry)
    (nodeArg : LuaValue) (property : Int) (toVal : Vec4) (easing : Int)
    (duration : ℚ) (arg6 arg7 : LuaValue)
    (herr : (LuaAnimate scene reg nodeArg property toVal easing duration
      arg6 arg7).m_Error.isSome = true) :
    (LuaAnimate scene reg nodeArg property toVal easing duration
      arg6 arg7).m_Scene = scene := by
  cases nodeArg <;> try rfl
  case nodeProxy sid node =>
    cases hv : IsValidNode scene node
    · simp only [LuaAnimate, hv]
      rfl
    · simp only [LuaAnimate, hv, if_true] at herr ⊢
      cases arg6 <;> try rfl
      case num d =>
        cases arg7 <;>
          by_cases hp : property ≥ PROPERTY_COUNT <;>
            by_cases he : easing ≥ EASING_COUNT <;>
              simp only [hp, he, if_true, if_false, ite_true, ite_false] at herr ⊢ <;>
                first
                  | rfl
                  | simp at herr
      case absent =>
        by_cases hp : property ≥ PROPERTY_COUNT <;>
          by_cases he : easing ≥ EASING_COUNT <;>
            simp only [hp, he, if_true, if_false, ite_true, ite_false] at herr ⊢ <;>
              first
                | rfl
                | simp at herr

/-- Witness for the amended C4 at a concrete failing call (invalid easing,
no completion function). -/
theorem luaAnimate_error_preserves_scene_witness :
    (LuaAnimate sceneOne emptyReg (.nodeProxy 0 0) 0 zero4 9 1
      .absent .absent).m_Scene = sceneOne :=
  luaAnimate_error_preserves_scene sceneOne emptyReg (.nodeProxy 0 0) 0 zero4 9 1
    .absent .absent (by decide)

/-! ## Scheduler lemmas: tracks and completions across ticks -/

theorem tickAnimation_survivor (scene : Scene) (dt : ℚ) (a a' : Animation)
    (h : (tickAnimation scene dt a).2.1 = some a') :
    a'.m_Userdata1 = a.m_Userdata1 ∧ animKey a' = animKey a := by
  unfold tickAnimation at h
  split_ifs at h <;> simp only [Option.some.injEq] at h <;>
    first
      | (subst h; exact ⟨rfl, rfl⟩)
      | cases h

theorem tickAnimation_completion (scene : Scene) (dt : ℚ) (a : Animation)
    (c : CompletionArgs) (h : (tickAnimation scene dt a).2.2 = some c) :
    c = ⟨a.m_Node, a.m_Userdata1, a.m_Userdata2⟩ ∧ a.m_HasCallback = true := by
  unfold tickAnimation at h
  split_ifs at h with h1 h2 h3 h4 <;>
    first
      | exact Option.noConfusion h
      | exact ⟨(Option.some.injEq _ _).mp h.symm, by assumption⟩
      | exact ⟨rfl, by assumption⟩

theorem tickList_survivor_key (dt : ℚ) :
    ∀ (l : List Animation) (scene : Scene),
      ∀ a' ∈ (tickList dt scene l).2.1, ∃ a ∈ l,
        a'.m_Userdata1 = a.m_Userdata1 ∧ animKey a' = animKey a := by
  intro l
  induction l with
  | nil => intro scene a' h; cases h
  | cons a rest ih =>
    intro scene a' h
    unfold tickList at h
    rw [List.mem_append] at h
    rcases h with h | h
    · rcases hopt : (tickAnimation scene dt a).2.1 with _ | b
      · rw [hopt] at h; cases h
      · rw [hopt] at h
        simp only [Option.toList_some, List.mem_singleton] at h
        subst h
        exact ⟨a, List.mem_cons_self a rest, tickAnimation_survivor scene dt a a' hopt⟩
    · obtain ⟨b, hb, hprop⟩ := ih (tickAnimation scene dt a).1 a' h
      exact ⟨b, List.mem_cons_of_mem a hb, hprop⟩

theorem tickList_completion_src (dt : ℚ) :
    ∀ (l : List Animation) (scene : Scene),
      ∀ c ∈ (tickList dt scene l).2.2, ∃ a ∈ l,
        c = ⟨a.m_Node, a.m_Userdata1, a.m_Userdata2⟩ ∧ a.m_HasCallback = true := by
  intro l
  induction l with
  | nil => intro scene c h; cases h
  | cons a rest ih =>
    intro scene c h
    unfold tickList at h
    rw [List.mem_append] at h
    rcases h with h | h
    · rcases hopt : (tickAnimation scene dt a).2.2 with _ | b
      · rw [hopt] at h; cases h
      · rw [hopt] at h
        simp only [Option.toList_some, List.mem_singleton] at h
        subst h
        exact ⟨a, List.mem_cons_self a rest, tickAnimation_completion scene dt a c hopt⟩
    · obtain ⟨b, hb, hprop⟩ := ih (tickAnimation scene dt a).1 c h
      exact ⟨b, List.mem_cons_of_mem a hb, hprop⟩

theorem deleteNode_animations (scene : Scene) (node : Nat) :
    ((LuaDeleteNode scene node).getD scene).m_Animations = scene.m_Animations := by
  cases hv : IsValidNode scene node <;> simp [LuaDeleteNode, hv]

theorem updateScene_tokenFree (scene : Scene) (dt : ℚ) (u : Nat)
    (hfree : TokenFree u scene) :
    TokenFree u (UpdateScene scene dt).1 ∧
      ∀ c ∈ (UpdateScene scene dt).2, c.m_Userdata1 ≠ u := by
  constructor
  · intro a ha
    have ha' : a ∈ (UpdateAnimations scene dt).1.m_Animations := by
      have : (UpdateScene scene dt).1.m_Animations =
          ((UpdateAnimations scene dt).1.m_Animations.filter
            fun b => !trackSlotReclaimed (UpdateAnimations scene dt).1 b) := rfl
      rw [this] at ha
      exact (List.mem_filter.mp ha).1
    obtain ⟨b, hb, hu, _⟩ := tickList_survivor_key dt scene.m_Animations scene a ha'
    rw [hu]
    exact hfree b hb
  · intro c hc
    obtain ⟨b, hb, hcb, _⟩ := tickList_completion_src dt scene.m_Animations scene c hc
    rw [hcb]
    exact hfree b hb

theorem applyOp_tokenFree (scene : Scene) (op : GuiOp) (u : Nat)
    (hfree : TokenFree u scene) (hop : opUsesToken u op = false) :
    TokenFree u (applyOp scene op).1 ∧
      ∀ c ∈ (applyOp scene op).2, c.m_Userdata1 ≠ u := by
  cases op with
  | animate node property toVal easing duration delay hasCb u1 u2 =>
    refine ⟨?_, by intro c hc; cases hc⟩
    intro a ha
    simp only [applyOp, AnimateNode, List.mem_append, List.mem_filter,
      List.mem_singleton] at ha
    rcases ha with ⟨ha, _⟩ | ha
    · exact hfree a ha
    · subst ha
      simpa [opUsesToken] using hop
  | cancel node property =>
    refine ⟨?_, by intro c hc; cases hc⟩
    intro a ha
    simp only [applyOp, CancelAnimation, List.mem_filter] at ha
    exact hfree a ha.1
  | deleteNode node =>
    refine ⟨?_, by intro c hc; cases hc⟩
    intro a ha
    rw [show (applyOp scene (GuiOp.deleteNode node)).1 =
      (LuaDeleteNode scene node).getD scene from rfl, deleteNode_animations] at ha
    exact hfree a ha
  | update dt => exact updateScene_tokenFree scene dt u hfree

theorem runOps_tokenFree (u : Nat) :
    ∀ (ops : List GuiOp) (scene : Scene), TokenFree u scene →
      (∀ op ∈ ops, opUsesToken u op = false) →
      TokenFree u (runOps scene ops).1 ∧
        ∀ c ∈ (runOps scene ops).2, c.m_Userdata1 ≠ u := by
  intro ops
  induction ops with
  | nil => intro scene hfree _; exact ⟨hfree, by intro c hc; cases hc⟩
  | cons op rest ih =>
    intro scene hfree hops
    have h1 := applyOp_tokenFree scene op u hfree (hops op (List.mem_cons_self op rest))
    have h2 := ih (applyOp scene op).1 h1.1
      (fun o ho => hops o (List.mem_cons_of_mem op ho))
    refine ⟨h2.1, ?_⟩
    intro c hc
    rw [show (runOps scene (op :: rest)).2 =
      (applyOp scene op).2 ++ (runOps (applyOp scene op).1 rest).2 from rfl,
      List.mem_append] at hc
    rcases hc with hc | hc
    · exact h1.2 c hc
    · exact h2.2 c hc

theorem beq_key_false {k1 k2 : Nat × Int} (h : (k1 == k2) = false) : k1 ≠ k2 := by
  intro heq
  rw [heq] at h
  simp at h

theorem animateNode_animations (scene : Scene) (node : Nat) (p : Int)
    (toVal : Vec4) (easing : Int) (duration delay : ℚ) (hasCb : Bool) (u1 u2 : Nat) :
    (AnimateNode scene node p toVal easing duration delay hasCb u1 u2).m_Animations =
      (scene.m_Animations.filter fun b => !(animKey b == (handleIndex node, p))) ++
        [{ m_Node := node
           m_Property := p
           m_To := toVal
           m_From := nodePropValue scene (handleIndex node) p
           m_Easing := easing
           m_Duration := duration
           m_Delay := max delay 0
           m_Elapsed := 0
           m_Userdata1 := u1
           m_Userdata2 := u2
           m_HasCallback := hasCb }] := rfl

theorem animateNode_atMostOne (scene : Scene) (node : Nat) (p : Int)
    (toVal : Vec4) (easing : Int) (duration delay : ℚ) (hasCb : Bool) (u1 u2 : Nat)
    (h : AtMostOnePerKey scene) :
    AtMostOnePerKey (AnimateNode scene node p toVal easing duration delay hasCb u1 u2) := by
  unfold AtMostOnePerKey
  rw [animateNode_animations, List.pairwise_append]
  refine ⟨h.filter _, List.pairwise_singleton _ _, ?_⟩
  intro b hb c hc
  rw [List.mem_singleton] at hc
  subst hc
  have hkey := (List.mem_filter.mp hb).2
  rw [Bool.not_eq_true'] at hkey
  exact beq_key_false hkey

theorem tickList_pairwise (dt : ℚ) :
    ∀ (l : List Animation) (scene : Scene),
      l.Pairwise (fun a b => animKey a ≠ animKey b) →
      (tickList dt scene l).2.1.Pairwise (fun a b => animKey a ≠ animKey b) := by
  intro l
  induction l with
  | nil => intro scene _; exact List.Pairwise.nil
  | cons a rest ih =>
    intro scene hp
    rw [List.pairwise_cons] at hp
    show ((tickAnimation scene dt a).2.1.toList ++
      (tickList dt (tickAnimation scene dt a).1 rest).2.1).Pairwise _
    rw [List.pairwise_append]
    refine ⟨?_, ih _ hp.2, ?_⟩
    · rcases (tickAnimation scene dt a).2.1 with _ | b
      · exact List.Pairwise.nil
      · exact List.pairwise_singleton _ _
    · intro x hx y hy
      rcases hopt : (tickAnimation scene dt a).2.1 with _ | b
      · rw [hopt] at hx; cases hx
      · rw [hopt] at hx
        simp only [Option.toList_some, List.mem_singleton] at hx
        subst hx
        have hxa := (tickAnimation_survivor scene dt a x hopt).2
        obtain ⟨c, hc, _, hyc⟩ :=
          tickList_survivor_key dt rest (tickAnimation scene dt a).1 y hy
        rw [hxa, hyc]
        exact hp.1 c hc

theorem applyOp_atMostOne (scene : Scene) (op : GuiOp)
    (h : AtMostOnePerKey scene) : AtMostOnePerKey (applyOp scene op).1 := by
  cases op with
  | animate node property toVal easing duration delay hasCb u1 u2 =>
    exact animateNode_atMostOne _ _ _ _ _ _ _ _ _ _ h
  | cancel node property => exact h.filter _
  | deleteNode node =>
    unfold AtMostOnePerKey
    rw [show (applyOp scene (GuiOp.deleteNode node)).1 =
      (LuaDeleteNode scene node).getD scene from rfl, deleteNode_animations]
    exact h
  | update dt =>
    unfold AtMostOnePerKey
    exact (tickList_pairwise dt scene.m_Animations scene h).filter _

theorem runOps_atMostOne :
    ∀ (ops : List GuiOp) (scene : Scene), AtMostOnePerKey scene →
      AtMostOnePerKey (runOps scene ops).1 := by
  intro ops
  induction ops with
  | nil => intro scene h; exact h
  | cons op rest ih =>
    intro scene h
    exact ih (applyOp scene op).1 (applyOp_atMostOne scene op h)

/-! ## C3: one track per (index, property); replacement never fires -/

/-- C3: starting a track twice on the same `(node index, property)` pair
atomically replaces the first: the at-most-one-track-per-key invariant
holds afterwards, the single track for the pair carries the second token,
the first token is carried by no track, over any subsequent operation
sequence that does not reuse the first token no fired completion ever
carries it, and the at-most-one-per-key invariant is preserved by every
subsequent operation sequence. -/
theorem animate_replaces_first_token_never_fires
    (scene : Scene) (node : Nat) (p : Int) (to1 to2 : Vec4) (e1 e2 : Int)
    (d1 d2 dl1 dl2 : ℚ) (u1 u2 v1 v2 : Nat) (ops : List GuiOp)
    (hkey : AtMostOnePerKey scene)
    (hfree : TokenFree u1 scene)
    (hneq : u1 ≠ u2)
    (hops : ∀ op ∈ ops, opUsesToken u1 op = false) :
    AtMostOnePerKey
      (AnimateNode (AnimateNode scene node p to1 e1 d1 dl1 true u1 v1)
        node p to2 e2 d2 dl2 true u2 v2) ∧
    ((AnimateNode (AnimateNode scene node p to1 e1 d1 dl1 true u1 v1)
        node p to2 e2 d2 dl2 true u2 v2).m_Animations.filter
      (fun a => animKey a == (handleIndex node, p))).map Animation.m_Userdata1 = [u2] ∧
    TokenFree u1
      (AnimateNode (AnimateNode scene node p to1 e1 d1 dl1 true u1 v1)
        node p to2 e2 d2 dl2 true u2 v2) ∧
    (∀ c ∈ (runOps
        (AnimateNode (AnimateNode scene node p to1 e1 d1 dl1 true u1 v1)
          node p to2 e2 d2 dl2 true u2 v2) ops).2, c.m_Userdata1 ≠ u1) ∧
    (∀ ops2 : List GuiOp, AtMostOnePerKey (runOps
        (AnimateNode (AnimateNode scene node p to1 e1 d1 dl1 true u1 v1)
          node p to2 e2 d2 dl2 true u2 v2) ops2).1) := by
  have hfree2 : TokenFree u1
      (AnimateNode (AnimateNode scene node p to1 e1 d1 dl1 true u1 v1)
        node p to2 e2 d2 dl2 true u2 v2) := by
    intro a ha
    rw [animateNode_animations, List.mem_append, List.mem_singleton] at ha
    rcases ha with ha | ha
    · have ha1 := (List.mem_filter.mp ha).1
      rw [animateNode_animations, List.mem_append, List.mem_singleton] at ha1
      rcases ha1 with ha1 | ha1
      · exact hfree a (List.mem_filter.mp ha1).1
      · have hkey := (List.mem_filter.mp ha).2
        rw [ha1] at hkey
        simp [animKey] at hkey
    · rw [ha]
      exact Ne.symm hneq
  have hkey2 : AtMostOnePerKey
      (AnimateNode (AnimateNode scene node p to1 e1 d1 dl1 true u1 v1)
        node p to2 e2 d2 dl2 true u2 v2) :=
    animateNode_atMostOne _ _ _ _ _ _ _ _ _ _
      (animateNode_atMostOne _ _ _ _ _ _ _ _ _ _ hkey)
  refine ⟨hkey2, ?_, hfree2, ?_, ?_⟩
  · rw [animateNode_animations, List.filter_append]
    have h1 : (((AnimateNode scene node p to1 e1 d1 dl1 true u1 v1).m_Animations.filter
        fun b => !(animKey b == (handleIndex node, p))).filter
          fun a => animKey a == (handleIndex node, p)) = [] := by
      rw [List.filter_eq_nil_iff]
      intro a ha
      have := (List.mem_filter.mp ha).2
      rw [Bool.not_eq_true'] at this
      rw [this]
      exact Bool.false_ne_true
    rw [h1]
    simp [List.filter_cons, animKey]
  · intro c hc
    exact (runOps_tokenFree u1 ops _ hfree2 hops).2 c hc
  · intro ops2
    exact runOps_atMostOne ops2 _ hkey2

/-- Witness for C3: two starts on `(index 0, property 0)` of the fixture
scene with tokens 10 then 20, followed by a frame update. -/
theorem animate_replaces_first_token_never_fires_witness :
    AtMostOnePerKey
      (AnimateNode (AnimateNode sceneOne 0 0 zero4 0 1 0 true 10 11)
        0 0 (10, 0, 0, 0) 0 1 0 true 20 21) ∧
    ((AnimateNode (AnimateNode sceneOne 0 0 zero4 0 1 0 true 10 11)
        0 0 (10, 0, 0, 0) 0 1 0 true 20 21).m_Animations.filter
      (fun a => animKey a == (handleIndex 0, 0))).map Animation.m_Userdata1 = [20] ∧
    TokenFree 10
      (AnimateNode (AnimateNode sceneOne 0 0 zero4 0 1 0 true 10 11)
        0 0 (10, 0, 0, 0) 0 1 0 true 20 21) ∧
    (∀ c ∈ (runOps
        (AnimateNode (AnimateNode sceneOne 0 0 zero4 0 1 0 true 10 11)
          0 0 (10, 0, 0, 0) 0 1 0 true 20 21) [GuiOp.update 1]).2,
      c.m_Userdata1 ≠ 10) ∧
    (∀ ops2 : List GuiOp, AtMostOnePerKey (runOps
        (AnimateNode (AnimateNode sceneOne 0 0 zero4 0 1 0 true 10 11)
          0 0 (10, 0, 0, 0) 0 1 0 true 20 21) ops2).1) :=
  animate_replaces_first_token_never_fires sceneOne 0 0 zero4 (10, 0, 0, 0)
    0 0 1 1 0 0 10 20 11 21 [GuiOp.update 1]
    List.Pairwise.nil (by intro a ha; exact absurd ha (by simp [sceneOne]))
    (by decide) (by decide)

/-! ## C6: the completion dispatcher's arguments -/

/-- A fixture track on node 0 animating property `p`, completing within one
unit tick, carrying the token words 5 and 6. -/
def animOnProp (p : Int) : Animation :=
  { m_Node := 0
    m_Property := p
    m_To := (10, 0, 0, 0)
    m_From := zero4
    m_Easing := 0
    m_Duration := 1
    m_Delay := 0
    m_Elapsed := 0
    m_Userdata1 := 5
    m_Userdata2 := 6
    m_HasCallback := true }

/-- The fixture scene holding exactly the track `animOnProp p`. -/
def sceneOnProp (p : Int) : Scene :=
  { m_Nodes := [nodeOne]
    m_Animations := [animOnProp p]
    m_FreeList := [] }

/-- C6 (counterexample): the animated `Property` is not among the
dispatcher's arguments.  The registered dispatcher has the source signature
`(HScene, HNode, void*, void*)`: two tracks that differ only in their
property (position vs. color) produce identical completion invocations, so a
dispatcher receiving the claimed `(Handle, Property, opaque, opaque)`
argument list is refuted at this input. -/
theorem completion_args_omit_property :
    (sceneOnProp 0).m_Animations.map Animation.m_Property ≠
      (sceneOnProp 3).m_Animations.map Animation.m_Property ∧
    (UpdateAnimations (sceneOnProp 0) 1).2 = (UpdateAnimations (sceneOnProp 3) 1).2 ∧
    (UpdateAnimations (sceneOnProp 0) 1).2 = [⟨0, 5, 6⟩] := by
  refine ⟨by decide, ?_, ?_⟩ <;>
    simp [UpdateAnimations, tickList, tickAnimation, tickT, sceneOnProp, animOnProp,
      nodeOne, IsValidNode, handleIndex, handleVersion, writeProp, lerp4, easeValue,
      zero4, defaultNode, INVALID_INDEX] <;>
      norm_num [min_def]

/-- C6 (amended): when a track completes, the core invokes the dispatcher
with the owning scene, the track's handle and the two caller-supplied opaque
token words forwarded verbatim and uninterpreted — the animated property is
not passed.  Every completion a tick emits is exactly the argument triple
`(handle, token word 1, token word 2)` of a registered track with a
callback. -/
theorem completion_forwards_tokens_verbatim (scene : Scene) (dt : ℚ)
    (c : CompletionArgs) (hc : c ∈ (UpdateAnimations scene dt).2) :
    ∃ a ∈ scene.m_Animations, a.m_HasCallback = true ∧
      c = ⟨a.m_Node, a.m_Userdata1, a.m_Userdata2⟩ := by
  obtain ⟨a, ha, hcb, hcall⟩ := tickList_completion_src dt scene.m_Animations scene c hc
  exact ⟨a, ha, hcall, hcb⟩

/-- Witness for the amended C6 at the fixture scene's completing track. -/
theorem completion_forwards_tokens_verbatim_witness :
    ∃ a ∈ (sceneOnProp 0).m_Animations, a.m_HasCallback = true ∧
      (⟨0, 5, 6⟩ : CompletionArgs) = ⟨a.m_Node, a.m_Userdata1, a.m_Userdata2⟩ :=
  completion_forwards_tokens_verbatim (sceneOnProp 0) 1 ⟨0, 5, 6⟩
    (by
      simp [UpdateAnimations, tickList, tickAnimation, tickT, sceneOnProp, animOnProp,
        nodeOne, IsValidNode, handleIndex, handleVersion, writeProp, lerp4, easeValue,
        zero4, defaultNode, INVALID_INDEX]
      norm_num [min_def])

/-! ## C8: linear-track timing and exact completion -/

/-- A linear track on property 0 of node 0: duration `D`, delay 0, start
`(0,0,0,0)`, end `(10,0,0,0)`, completion tokens 1 and 2. -/
def animLin (D : ℚ) : Animation :=
  { m_Node := 0
    m_Property := 0
    m_To := (10, 0, 0, 0)
    m_From := zero4
    m_Easing := 0
    m_Duration := D
    m_Delay := 0
    m_Elapsed := 0
    m_Userdata1 := 1
    m_Userdata2 := 2
    m_HasCallback := true }

/-- The fixture scene holding exactly the track `animLin D`. -/
def sceneLin (D : ℚ) : Scene :=
  { m_Nodes := [nodeOne]
    m_Animations := [animLin D]
    m_FreeList := [] }

/-- C8: for a track with duration `D > 0`, delay 0, linear easing, start
`(0,0,0,0)` and end `(10,0,0,0)`: `Tick(D/2)` writes `(5,0,0,0)` into the
property and fires nothing; one further `Tick(D/2)` writes exactly the end
value `(10,0,0,0)` (assigned from the stored end value, not recomputed, so
free of drift for every `D`), removes the track, and fires its completion
exactly once. -/
theorem tick_half_midpoint_then_exact_completion (D : ℚ) (hD : 0 < D) :
    LuaGetProperty (UpdateAnimations (sceneLin D) (D / 2)).1 0 0 = some (5, 0, 0, 0) ∧
    (UpdateAnimations (sceneLin D) (D / 2)).2 = [] ∧
    LuaGetProperty
      (UpdateAnimations (UpdateAnimations (sceneLin D) (D / 2)).1 (D / 2)).1 0 0 =
        some (10, 0, 0, 0) ∧
    (UpdateAnimations (UpdateAnimations (sceneLin D) (D / 2)).1 (D / 2)).2 =
      [⟨0, 1, 2⟩] ∧
    (UpdateAnimations (UpdateAnimations (sceneLin D) (D / 2)).1 (D / 2)).1.m_Animations
      = [] := by
  have hne : D ≠ 0 := ne_of_gt hD
  have hhalf : ¬(D / 2 ≤ 0) := by
    push_neg
    linarith
  have hDn : ¬(D ≤ 0) := by
    push_neg
    exact hD
  have ht1 : D / 2 / D = 1 / 2 := by
    field_simp <;> ring
  have ht2 : (D / 2 + D / 2) / D = 1 := by
    field_simp <;> ring
  have hDD : D / D = 1 := div_self hne
  refine ⟨?_, ?_, ?_, ?_, ?_⟩ <;>
    norm_num [UpdateAnimations, tickList, tickAnimation, tickT, sceneLin, animLin,
      nodeOne, IsValidNode, handleIndex, handleVersion, writeProp, lerp4, easeValue,
      advanceAnim, zero4, defaultNode, LuaGetProperty, hhalf, hDn, ht1, ht2, hDD, min_def]

/-- Witness for C8 at `D = 1`. -/
theorem tick_half_midpoint_then_exact_completion_witness :
    LuaGetProperty (UpdateAnimations (sceneLin 1) (1 / 2)).1 0 0 = some (5, 0, 0, 0) ∧
    (UpdateAnimations (sceneLin 1) (1 / 2)).2 = [] ∧
    LuaGetProperty
      (UpdateAnimations (UpdateAnimations (sceneLin 1) (1 / 2)).1 (1 / 2)).1 0 0 =
        some (10, 0, 0, 0) ∧
    (UpdateAnimations (UpdateAnimations (sceneLin 1) (1 / 2)).1 (1 / 2)).2 =
      [⟨0, 1, 2⟩] ∧
    (UpdateAnimations (UpdateAnimations (sceneLin 1) (1 / 2)).1 (1 / 2)).1.m_Animations
      = [] :=
  tick_half_midpoint_then_exact_completion 1 (by norm_num)

/-! ## C7: sweep reclamation and version reuse -/

theorem handleVersion_getNodeHandle (v i : Nat) :
    handleVersion (GetNodeHandle v i) = v % 65536 := by
  rw [handleVersion_eq, GetNodeHandle]
  omega

theorem handleIndex_getNodeHandle (v i : Nat) :
    handleIndex (GetNodeHandle v i) = i % 65536 := by
  rw [handleIndex_eq_mod, GetNodeHandle]
  omega

theorem sweepNodeList_length (l : List InternalNode) :
    (sweepNodeList l).length = l.length := by
  induction l with
  | nil => rfl
  | cons n rest ih => simp [sweepNodeList, ih]

theorem sweepNodeList_getD (l : List InternalNode) :
    ∀ i : Nat, i < l.length →
      (sweepNodeList l).getD i defaultNode = sweepNode (l.getD i defaultNode) := by
  induction l with
  | nil => intro i hi; cases hi
  | cons n rest ih =>
    intro i hi
    cases i with
    | zero => rfl
    | succ j => exact ih j (Nat.lt_of_succ_lt_succ hi)

theorem newNode_of_freeList_head (s2 : Scene) (pos ext : Vec4) (i : Nat)
    (rest : List Nat) (hfl : s2.m_FreeList = i :: rest) :
    ∃ s3, NewNode s2 pos ext = some (s3,
      GetNodeHandle (s2.m_Nodes.getD i defaultNode).m_Version i) := by
  unfold NewNode
  rw [hfl]
  exact ⟨_, rfl⟩

/-- C7 (amended): after the sweep that reclaims the slot of a valid handle
(occupied and pending-delete), the handle no longer validates; the reclaimed
slot's 16-bit version is the handle's version plus one mod 2^16; every
`Allocate` that takes index `i` off the free list returns a handle packing
the slot's then-current version with `i`; and a version bumped once is
strictly greater as long as the 16-bit counter does not wrap (v < 2^16 - 1).
Strict growth across arbitrarily many reclaims fails once the counter wraps
(see the counterexample), so it holds only modulo 2^16. -/
theorem sweep_invalidates_and_reuse_version (scene : Scene) (node : Nat)
    (hv : IsValidNode scene node = true)
    (hocc : (scene.m_Nodes.getD (handleIndex node) defaultNode).m_Occupied = true)
    (hdel : (scene.m_Nodes.getD (handleIndex node) defaultNode).m_Deleted = true) :
    IsValidNode (SweepNodes scene) node = false ∧
    ((SweepNodes scene).m_Nodes.getD (handleIndex node) defaultNode).m_Version =
      (handleVersion node + 1) % 65536 ∧
    (∀ (s2 : Scene) (pos ext : Vec4) (i : Nat) (rest : List Nat),
      s2.m_FreeList = i :: rest →
      ∃ s3, NewNode s2 pos ext = some (s3,
          GetNodeHandle (s2.m_Nodes.getD i defaultNode).m_Version i) ∧
        handleVersion (GetNodeHandle (s2.m_Nodes.getD i defaultNode).m_Version i) =
          (s2.m_Nodes.getD i defaultNode).m_Version % 65536 ∧
        handleIndex (GetNodeHandle (s2.m_Nodes.getD i defaultNode).m_Version i) =
          i % 65536) ∧
    (∀ v : Nat, v < 65535 → v < (v + 1) % 65536) := by
  obtain ⟨hlt, hver, hidx⟩ := isValidNode_elim scene node hv
  have hvlt : handleVersion node < 65536 := by
    rw [handleVersion]
    exact Nat.mod_lt _ (by norm_num)
  have hnodes : (SweepNodes scene).m_Nodes = sweepNodeList scene.m_Nodes := rfl
  have hslot : (SweepNodes scene).m_Nodes.getD (handleIndex node) defaultNode =
      sweepNode (scene.m_Nodes.getD (handleIndex node) defaultNode) := by
    rw [hnodes]
    exact sweepNodeList_getD scene.m_Nodes (handleIndex node) hlt
  have hswept : sweepNode (scene.m_Nodes.getD (handleIndex node) defaultNode) =
      { defaultNode with m_Version :=
          ((scene.m_Nodes.getD (handleIndex node) defaultNode).m_Version + 1) % 65536 } := by
    rw [sweepNode, if_pos]
    rw [hocc, hdel]
    rfl
  refine ⟨?_, ?_, ?_, by omega⟩
  · rw [isValidNode_eq]
    have hlen : (SweepNodes scene).m_Nodes.length = scene.m_Nodes.length := by
      rw [hnodes]
      exact sweepNodeList_length scene.m_Nodes
    rw [hslot, hswept]
    have hne : ((handleVersion node + 1) % 65536) ≠ handleVersion node := by
      omega
    simp only [Bool.and_eq_false_iff, Bool.and_eq_true, beq_iff_eq, beq_eq_false_iff_ne,
      decide_eq_true_eq, decide_eq_false_iff_not]
    refine Or.inl (Or.inr ?_)
    intro h2
    rw [hver] at h2
    exact hne h2
  · rw [hslot, hswept, hver]
  · intro s2 pos ext i rest hfl
    obtain ⟨s3, hs3⟩ := newNode_of_freeList_head s2 pos ext i rest hfl
    exact ⟨s3, hs3, handleVersion_getNodeHandle _ _, handleIndex_getNodeHandle _ _⟩

/-- A fixture slot at position 0 that is occupied and marked pending-delete. -/
def nodeDel : InternalNode :=
  { m_Version := 0
    m_Index := 0
    m_Deleted := true
    m_Occupied := true
    m_Properties := [zero4, zero4, zero4, zero4, zero4] }

/-- A one-slot scene holding `nodeDel`, i.e. right after `DeleteNode`. -/
def sceneDel : Scene :=
  { m_Nodes := [nodeDel]
    m_Animations := []
    m_FreeList := [] }

/-- Witness for the amended C7 at a concrete marked-deleted slot. -/
theorem sweep_invalidates_and_reuse_version_witness :
    IsValidNode (SweepNodes sceneDel) 0 = false ∧
    ((SweepNodes sceneDel).m_Nodes.getD (handleIndex 0) defaultNode).m_Version =
      (handleVersion 0 + 1) % 65536 ∧
    (∀ (s2 : Scene) (pos ext : Vec4) (i : Nat) (rest : List Nat),
      s2.m_FreeList = i :: rest →
      ∃ s3, NewNode s2 pos ext = some (s3,
          GetNodeHandle (s2.m_Nodes.getD i defaultNode).m_Version i) ∧
        handleVersion (GetNodeHandle (s2.m_Nodes.getD i defaultNode).m_Version i) =
          (s2.m_Nodes.getD i defaultNode).m_Version % 65536 ∧
        handleIndex (GetNodeHandle (s2.m_Nodes.getD i defaultNode).m_Version i) =
          i % 65536) ∧
    (∀ v : Nat, v < 65535 → v < (v + 1) % 65536) :=
  sweep_invalidates_and_reuse_version sceneDel 0 (by decide) (by decide) (by decide)

/-- A fixture slot whose version counter is saturated at 2^16 - 1. -/
def nodeWrap : InternalNode :=
  { m_Version := 65535
    m_Index := 0
    m_Deleted := false
    m_Occupied := true
    m_Properties := [zero4, zero4, zero4, zero4, zero4] }

/-- A one-slot scene holding `nodeWrap`. -/
def sceneWrap : Scene :=
  { m_Nodes := [nodeWrap]
    m_Animations := []
    m_FreeList := [] }

/-- The (valid) handle to slot 0 of `sceneWrap`: version 65535, index 0. -/
def handleWrap : Nat := GetNodeHandle 65535 0

/-- C7 (counterexample): "strictly greater version" fails at the 16-bit
wrap.  For the valid handle with version 2^16 - 1, deleting the node,
sweeping, and allocating again reuses the same slot index but returns a
handle with version 0 — not strictly greater than 2^16 - 1. -/
theorem sweep_reuse_version_not_strictly_greater :
    IsValidNode sceneWrap handleWrap = true ∧
    ((NewNode (SweepNodes ((LuaDeleteNode sceneWrap handleWrap).getD sceneWrap))
        zero4 zero4).map fun r => handleIndex r.2) = some (handleIndex handleWrap) ∧
    ((NewNode (SweepNodes ((LuaDeleteNode sceneWrap handleWrap).getD sceneWrap))
        zero4 zero4).map fun r => handleVersion r.2) = some 0 ∧
    ((NewNode (SweepNodes ((LuaDeleteNode sceneWrap handleWrap).getD sceneWrap))
        zero4 zero4).map fun r =>
          decide (handleVersion handleWrap < handleVersion r.2)) = some false := by
  refine ⟨by decide, by decide, by decide, by decide⟩

end DmGui
